import Mathlib

set_option maxRecDepth 100000

/-!
# Verification of the labchain core against its specification

This file shallowly embeds the consensus core of the labchain repository
(`src/src/`: `proof_of_work.py`, `block.py`, `blockchain.py`, `transaction.py`,
`merkle.py`, `scriptinterpreter.py`, `chainbuilder.py`, `utils.py`, `config.py`)
and proves or refutes the frozen claims about it.

Modelling conventions:
* Python `int` is `Int` (or `Nat` where the source value is a byte or a length);
  `fractions.Fraction` is `ℚ`; `datetime` values are microseconds since the Unix
  epoch as `Int`; `timedelta` constants are microsecond counts.
* SHA-256 is modelled symbolically: `get_hasher()` accumulates the list of
  absorbed values and `digest()` returns that list under the free constructor
  `HVal.digest`.  This is the standard collision-free idealisation of a
  cryptographic hash; equality of digests is equality of the absorbed streams.
  The numeric value of a digest's bytes (needed by the proof of work) is left
  as an explicit function parameter `pw`.
* A raised Python exception is modelled as `Except.error ()` (or `Option.none`
  in the script interpreter); `return None` is `Except.ok none`.
* `dict` objects are association lists; Python guarantees their keys are
  pairwise distinct, which appears as a `Nodup` hypothesis where it matters.
* The current wall-clock time (`datetime.utcnow()`) is an explicit parameter
  `now`.
-/

/-! ## Byte-level integer encodings (`src/src/utils.py`, `Block._int_to_bytes`) -/

/-- Bit length with explicit structural fuel; the fuel only needs to exceed
the number of halvings, and `bitLen` passes `n` itself. -/
def bitLenAux : Nat → Nat → Nat
  | 0, _ => 0
  | fuel + 1, n => if n = 0 then 0 else bitLenAux fuel (n / 2) + 1

/-- Python `int.bit_length()` for a natural number: bits without leading zeros. -/
def bitLen (n : Nat) : Nat := bitLenAux n n

/-- Python `int.bit_length()`: the bit length of the absolute value. -/
def pyBitLength (v : Int) : Nat := bitLen v.natAbs

/-- Little-endian base-256 digits of `v`, exactly `n` bytes. -/
def leBytes : Nat → Nat → List Nat
  | 0, _ => []
  | n + 1, v => (v % 256) :: leBytes n (v / 256)

/-- `int_to_bytes` from `src/src/utils.py` (identical to
`Block._int_to_bytes` in `src/src/block.py`): an 8-byte little-endian length
`L = v.bit_length() + 1` followed by `L` bytes of two's-complement
little-endian. -/
def int_to_bytes (v : Int) : List Nat :=
  let l := pyBitLength v + 1
  leBytes 8 l ++ leBytes l (v.emod (2 ^ (8 * l))).toNat

theorem leBytes_length (n v : Nat) : (leBytes n v).length = n := by
  induction n generalizing v with
  | zero => rfl
  | succ k ih => simp [leBytes, ih]

theorem int_to_bytes_ne_nil (v : Int) : int_to_bytes v ≠ [] := by
  have h8 : (leBytes 8 (pyBitLength v + 1)).length = 8 := leBytes_length 8 _
  intro h
  unfold int_to_bytes at h
  have := congrArg List.length h
  simp [h8] at this

/-! ## Proof of work (`src/src/proof_of_work.py`) -/

/-- `MAX_HASH` is imported by `src/src/proof_of_work.py` from `.crypto`; the
module `src/src/crypto.py` does not define it, but the repository's other
crypto module (`src/crypto.py`) defines it as `(1 << 512) - 1`. -/
def MAX_HASH : Nat := 2 ^ 512 - 1

/-- Python `int.from_bytes(bs, byteorder='little', signed=False)`. -/
def intFromBytesLE : List Nat → Nat
  | [] => 0
  | b :: r => b + 256 * intFromBytesLE r

/-- Python `int.from_bytes(bs, byteorder='big', signed=False)`. -/
def intFromBytesBE (l : List Nat) : Nat :=
  l.foldl (fun a b => 256 * a + b) 0

/-- `verify_proof_of_work` from `src/src/proof_of_work.py`:
`int.from_bytes(block.hash, byteorder='little', signed=False) >
 (MAX_HASH - MAX_HASH // block.difficulty)`.
The function only reads `block.hash` and `block.difficulty`, so it is embedded
on those two values.  `difficulty = 0` raises `ZeroDivisionError`, modelled as
`Except.error ()`. -/
def verify_proof_of_work (hashBytes : List Nat) (difficulty : Int) : Except Unit Bool :=
  if difficulty = 0 then .error ()
  else .ok (decide ((intFromBytesLE hashBytes : Int) > (MAX_HASH : Int) - Int.fdiv MAX_HASH difficulty))

/-! ## Symbolic hash values -/

/-- A symbolic hash-input value: raw bytes, a Python string absorbed via
`.encode()`, or the digest of a sequence of absorbed values.  `digest` is a
free constructor, so the modelled hash is collision-free. -/
inductive HVal where
  | bytes : List Nat → HVal
  | str : String → HVal
  | digest : List HVal → HVal

mutual
def hvalDecEq : (a b : HVal) → Decidable (a = b)
  | .bytes x, .bytes y =>
    match inferInstanceAs (Decidable (x = y)) with
    | isTrue h => isTrue (by rw [h])
    | isFalse h => isFalse (by intro hh; cases hh; exact h rfl)
  | .str x, .str y =>
    match inferInstanceAs (Decidable (x = y)) with
    | isTrue h => isTrue (by rw [h])
    | isFalse h => isFalse (by intro hh; cases hh; exact h rfl)
  | .digest x, .digest y =>
    match hvalListDecEq x y with
    | isTrue h => isTrue (by rw [h])
    | isFalse h => isFalse (by intro hh; cases hh; exact h rfl)
  | .bytes _, .str _ => isFalse nofun
  | .bytes _, .digest _ => isFalse nofun
  | .str _, .bytes _ => isFalse nofun
  | .str _, .digest _ => isFalse nofun
  | .digest _, .bytes _ => isFalse nofun
  | .digest _, .str _ => isFalse nofun

def hvalListDecEq : (a b : List HVal) → Decidable (a = b)
  | [], [] => isTrue rfl
  | x :: xs, y :: ys =>
    match hvalDecEq x y, hvalListDecEq xs ys with
    | isTrue h1, isTrue h2 => isTrue (by rw [h1, h2])
    | isFalse h1, _ => isFalse (by intro hh; injection hh; contradiction)
    | isTrue _, isFalse h2 => isFalse (by intro hh; injection hh; contradiction)
  | [], _ :: _ => isFalse nofun
  | _ :: _, [] => isFalse nofun
end

instance : DecidableEq HVal := hvalDecEq

instance {ε α : Type} [DecidableEq ε] [DecidableEq α] : DecidableEq (Except ε α)
  | .ok a, .ok b =>
    match inferInstanceAs (Decidable (a = b)) with
    | isTrue h => isTrue (by rw [h])
    | isFalse h => isFalse (by intro hh; cases hh; exact h rfl)
  | .error a, .error b =>
    match inferInstanceAs (Decidable (a = b)) with
    | isTrue h => isTrue (by rw [h])
    | isFalse h => isFalse (by intro hh; cases hh; exact h rfl)
  | .ok _, .error _ => isFalse nofun
  | .error _, .ok _ => isFalse nofun

/-! ## Transactions (`src/src/transaction.py`) -/

/-- `TransactionTarget` namedtuple: `(pubkey_script, amount)`. -/
structure TransactionTarget where
  pubkey_script : String
  amount : Int
deriving DecidableEq

/-- `TransactionInput` namedtuple: `(transaction_hash, output_idx, sig_script)`. -/
structure TransactionInput where
  transaction_hash : HVal
  output_idx : Int
  sig_script : String
deriving DecidableEq

/-- A `Transaction`.  The cached `_hash` field is omitted: `get_hash` is a pure
function of the remaining fields. -/
structure Transaction where
  inputs : List TransactionInput
  targets : List TransactionTarget
  timestamp : Int
  iv : Option (List Nat)
deriving DecidableEq

/-- The sequence of values absorbed by `Transaction.get_hash`
(`src/src/transaction.py` lines 184-202): the optional `iv`, the target count,
each target's amount and script, the input count, and each input's
`transaction_hash` and `output_idx`.  Inputs' `sig_script` fields are not
absorbed. -/
def txChunks (t : Transaction) : List HVal :=
  (match t.iv with
   | some v => [HVal.bytes v]
   | none => []) ++
  [HVal.bytes (int_to_bytes t.targets.length)] ++
  (t.targets.map fun tg => [HVal.bytes (int_to_bytes tg.amount), HVal.str tg.pubkey_script]).flatten ++
  [HVal.bytes (int_to_bytes t.inputs.length)] ++
  (t.inputs.map fun i => [i.transaction_hash, HVal.bytes (int_to_bytes i.output_idx)]).flatten

/-- `Transaction.get_hash`. -/
def Transaction.getHash (t : Transaction) : HVal := .digest (txChunks t)

/-! ## Merkle trees (`src/src/merkle.py`) -/

/-- The root hash of `merkle_tree([])`: `MerkleNode(None, None).get_hash()`
absorbs `b''` twice. -/
def emptyMerkleRoot : HVal := .digest [.bytes [], .bytes []]

/-- One pairing pass of the `while` loop in `merkle_tree`: `zip_longest` pairs
the values left to right; a missing second element of the last pair becomes
`None`, whose hash is `b''`. -/
def merkleStep : List HVal → List HVal
  | a :: b :: r => .digest [a, b] :: merkleStep r
  | [a] => [.digest [a, .bytes []]]
  | [] => []

theorem merkleStep_length : ∀ l : List HVal, (merkleStep l).length = (l.length + 1) / 2
  | [] => by simp [merkleStep]
  | [_] => by simp [merkleStep]
  | _ :: _ :: r => by
    simp [merkleStep, merkleStep_length r]
    omega

/-- The `while len(values) > 1` loop of `merkle_tree`, with structural fuel:
each pass at least halves the level, so the initial length is ample fuel (the
fuel-0 fallback is unreachable). -/
def merkleLoopAux : Nat → List HVal → HVal
  | _, [] => .bytes []
  | _, [a] => a
  | 0, a :: _ :: _ => a
  | fuel + 1, a :: b :: r => merkleLoopAux fuel (merkleStep (a :: b :: r))

/-- The `while len(values) > 1` loop of `merkle_tree`, acting on the hashes of
the current level; a single value is returned as is. -/
def merkleLoop (l : List HVal) : HVal := merkleLoopAux l.length l

/-- `merkle_tree(transactions).get_hash()` as used by `Block.verify_merkle`:
the empty list gives `emptyMerkleRoot`; a single transaction is returned by
`merkle_tree` unchanged, so its own hash is the root. -/
def merkleRootHash (ts : List Transaction) : HVal :=
  match ts with
  | [] => emptyMerkleRoot
  | _ => merkleLoop (ts.map Transaction.getHash)

/-! ## Blocks (`src/src/block.py`) -/

/-- A `Block`.  `received_time` is omitted: no embedded operation reads it. -/
structure Block where
  hash : HVal
  prev_block_hash : HVal
  merkle_root_hash : HVal
  time : Int
  nonce : Int
  height : Int
  difficulty : Int
  transactions : List Transaction
deriving DecidableEq

/-- The values absorbed by `Block.get_partial_hash` plus the nonce
(`Block.get_hash`): previous block hash, Merkle root, the strftime rendering of
`time` (modelled as an injective byte encoding of the microsecond timestamp),
the encoded difficulty and the encoded nonce. -/
def headerChunks (b : Block) : List HVal :=
  [b.prev_block_hash, b.merkle_root_hash, HVal.bytes (int_to_bytes b.time),
   HVal.bytes (int_to_bytes b.difficulty), HVal.bytes (int_to_bytes b.nonce)]

/-- `Block.get_hash` (does not read the mutable `hash` field). -/
def Block.getHash (b : Block) : HVal := .digest (headerChunks b)

/-- `GENESIS_DIFFICULTY` from `src/src/proof_of_work.py`. -/
def GENESIS_DIFFICULTY : Int := 1000

/-- `2017-03-03T10:35:26.922898 UTC` in microseconds since the Unix epoch. -/
def GENESIS_TIME : Int := 1488537326922898

/-- The genesis block as constructed at the bottom of `src/src/block.py`,
before its `hash` field is filled in: `prev_block_hash` is the ASCII string
`"None; 5 0:01:00"` (from `DIFFICULTY_BLOCK_INTERVAL = 5` and
`DIFFICULTY_TARGET_TIMEDELTA = timedelta(seconds=60)`), the Merkle root of an
empty transaction list, nonce 0, height 0 and `GENESIS_DIFFICULTY`. -/
def GENESIS_HEADER : Block :=
  { hash := .bytes []
    prev_block_hash := .str "None; 5 0:01:00"
    merkle_root_hash := emptyMerkleRoot
    time := GENESIS_TIME
    nonce := 0
    height := 0
    difficulty := GENESIS_DIFFICULTY
    transactions := [] }

/-- `GENESIS_BLOCK_HASH = GENESIS_BLOCK.get_hash()`. -/
def GENESIS_BLOCK_HASH : HVal := GENESIS_HEADER.getHash

/-- `GENESIS_BLOCK` after `GENESIS_BLOCK.hash = GENESIS_BLOCK_HASH`. -/
def GENESIS_BLOCK : Block := { GENESIS_HEADER with hash := GENESIS_BLOCK_HASH }

/-! ## Blockchains (`src/src/blockchain.py`) -/

/-- Consensus constants from `src/src/config.py`. -/
def GENESIS_REWARD : Int := 1000

/-- `REWARD_HALF_LIFE` from `src/src/config.py`. -/
def REWARD_HALF_LIFE : Int := 10000

/-- `DIFFICULTY_BLOCK_INTERVAL` from `src/src/config.py`. -/
def DIFFICULTY_BLOCK_INTERVAL : Nat := 5

/-- The local constant `BLOCK_TARGET_TIMEDELTA` of
`Blockchain.compute_difficulty`: `timedelta(minutes=1)` in microseconds. -/
def BLOCK_TARGET_TIMEDELTA_US : Int := 60000000

/-- A `Blockchain` object: the ordered block list, the hash-to-index dict
`block_indices` and the `unspent_coins` dict (keyed by `TransactionInput`
values, the type of the keys tested by `try_append`). -/
structure Blockchain where
  blocks : List Block
  block_indices : List (HVal × Nat)
  unspent_coins : List (TransactionInput × TransactionTarget)
deriving DecidableEq

/-- `Blockchain.__init__`: the genesis chain. -/
def Blockchain.init : Blockchain :=
  { blocks := [GENESIS_BLOCK]
    block_indices := [(GENESIS_BLOCK_HASH, 0)]
    unspent_coins := [] }

/-- `dict.get` on `block_indices`. -/
def lookupIdx (l : List (HVal × Nat)) (h : HVal) : Option Nat :=
  (l.find? (fun p => decide (p.1 = h))).map (·.2)

/-- `dict[k] = v`: overwrite an existing key in place, else append. -/
def dictSet (l : List (HVal × Nat)) (k : HVal) (v : Nat) : List (HVal × Nat) :=
  if l.any (fun p => decide (p.1 = k)) then l.map (fun p => if p.1 = k then (k, v) else p)
  else l ++ [(k, v)]

/-- `Blockchain.get_block_by_hash`: `block_indices.get` then `self.blocks[idx]`
(an out-of-range index raises `IndexError`). -/
def Blockchain.getBlockByHash (c : Blockchain) (h : HVal) : Except Unit (Option Block) :=
  match lookupIdx c.block_indices h with
  | none => .ok none
  | some i =>
    match c.blocks[i]? with
    | some b => .ok (some b)
    | none => .error ()

/-- Python `int(...)` on a `Fraction`: truncation toward zero. -/
def pyTrunc (q : ℚ) : Int := if q < 0 then -(Int.floor (-q)) else Int.floor q

/-- `Blockchain.compute_difficulty` (`src/src/blockchain.py` lines 111-134) for
an explicitly given `prev_block`.  The function uses its own local constant
`BLOCK_INTERVAL = 120` (not the config value).  A missing `prev_block.hash`
raises `KeyError`; an empty duration raises `ZeroDivisionError` inside the
`Fraction` division; both are `.error ()`.  The `duration.total_seconds()`
round trip through float is exact on the microsecond timestamps used here and
is modelled as exact. -/
def Blockchain.computeDifficulty (c : Blockchain) (prev : Block) : Except Unit Int :=
  match lookupIdx c.block_indices prev.hash with
  | none => .error ()
  | some l =>
    let block_idx := l + 1
    if block_idx % 120 ≠ 0 then .ok prev.difficulty
    else
      match c.blocks[block_idx - 120]?, c.blocks[0]? with
      | some b0, some g =>
        let duration : Int := prev.time - b0.time
        if duration = 0 then .error ()
        else
          let hash_rate : ℚ := (prev.difficulty : ℚ) * 120 / (duration : ℚ)
          let new_difficulty : ℚ := hash_rate * (BLOCK_TARGET_TIMEDELTA_US : ℚ) / 120
          let clamped : ℚ :=
            if new_difficulty < (g.difficulty : ℚ) then (g.difficulty : ℚ) else new_difficulty
          .ok (pyTrunc clamped)
      | _, _ => .error ()

/-- The `while l > 0: l = l - 10000; reward = reward // 2` loop of
`Blockchain.compute_blockreward`, with structural fuel: `l` drops by 10000
each pass, so `l.toNat + 1` passes always reach the exit branch. -/
def rewardLoopAux : Nat → Int → Int → Int
  | 0, _, reward => reward
  | fuel + 1, l, reward =>
    if l > 0 then rewardLoopAux fuel (l - 10000) (Int.fdiv reward 2) else reward

/-- The reward loop of `Blockchain.compute_blockreward`. -/
def rewardLoop (l : Int) (reward : Int) : Int := rewardLoopAux (l.toNat + 1) l reward

/-- `Blockchain.compute_blockreward` (`src/src/blockchain.py` lines 136-144):
starts from the hardcoded reward 1000 and halves once per started 10000-block
period of the predecessor's chain index. -/
def Blockchain.computeBlockreward (c : Blockchain) (prev : Block) : Except Unit Int :=
  match lookupIdx c.block_indices prev.hash with
  | none => .error ()
  | some l => .ok (rewardLoop (l : Int) 1000)

/-- `compute_blockreward_next_block` from `src/src/utils.py`:
`GENESIS_REWARD // (2 ** (block_num // REWARD_HALF_LIFE))`. -/
def compute_blockreward_next_block (block_num : Nat) : Int :=
  GENESIS_REWARD / (2 : Int) ^ (block_num / 10000)

/-! ## Block verification (`src/src/block.py`) -/

/-- `Block.verify_merkle`. -/
def Block.verifyMerkle (b : Block) : Bool :=
  decide (merkleRootHash b.transactions = b.merkle_root_hash)

/-- `Block.verify_difficulty`.  `pw` gives the byte string of a symbolic
digest, used only by the numeric proof-of-work comparison. -/
def Block.verifyDifficulty (pw : HVal → List Nat) (b : Block) : Except Unit Bool :=
  if b.hash ≠ b.getHash then .ok false
  else if b.hash = GENESIS_BLOCK_HASH then .ok true
  else verify_proof_of_work (pw b.hash) b.difficulty

/-- `Block.verify_prev_block` (`src/src/block.py` lines 146-160). -/
def Block.verifyPrevBlock (b : Block) (chain : Blockchain) : Except Unit Bool :=
  if b.hash = GENESIS_BLOCK_HASH then .ok true
  else do
    match ← chain.getBlockByHash b.prev_block_hash with
    | none => .ok false
    | some prev => do
      let d ← chain.computeDifficulty prev
      if b.difficulty ≠ d then .ok false
      else if prev.height + b.difficulty ≠ b.height then .ok false
      else .ok true

/-- `Block.verify_transactions` (`src/src/block.py` lines 162-189).  For a
non-genesis hash it asserts the previous block exists (`AssertionError` when
missing) and then iterates over the transactions; the first iteration always
reaches `t.verify(...)`, a method that does not exist on `Transaction`
(`src/src/transaction.py` defines `validate_tx` instead), raising
`AttributeError`.  So the result is `True` exactly for the genesis hash or an
empty transaction list. -/
def Block.verifyTransactions (b : Block) (chain : Blockchain) : Except Unit Bool :=
  if b.hash = GENESIS_BLOCK_HASH then .ok true
  else do
    match ← chain.getBlockByHash b.prev_block_hash with
    | none => .error ()
    | some _ =>
      match b.transactions with
      | [] => .ok true
      | _ :: _ => .error ()

/-- `Block.verify_time`: rejects far-future blocks (`time - 2h > now`) and
non-increasing timestamps; asserts the previous block exists. -/
def Block.verifyTime (b : Block) (chain : Blockchain) (now : Int) : Except Unit Bool :=
  if b.hash = GENESIS_BLOCK_HASH then .ok true
  else if b.time - 7200000000 > now then .ok false
  else do
    match ← chain.getBlockByHash b.prev_block_hash with
    | none => .error ()
    | some prev =>
      if b.time ≤ prev.time then .ok false else .ok true

/-- `Block.verify`: the short-circuit conjunction of the five checks, with the
height-0 guard in front. -/
def Block.verify (pw : HVal → List Nat) (now : Int) (b : Block) (chain : Blockchain) :
    Except Unit Bool :=
  if b.height = 0 ∧ b.hash ≠ GENESIS_BLOCK_HASH then .ok false
  else do
    let d ← b.verifyDifficulty pw
    if ¬ d then .ok false
    else if ¬ b.verifyMerkle then .ok false
    else do
      let p ← b.verifyPrevBlock chain
      if ¬ p then .ok false
      else do
        let t ← b.verifyTransactions chain
        if ¬ t then .ok false
        else b.verifyTime chain now

/-! ## `Blockchain.try_append` (`src/src/blockchain.py` lines 30-51) -/

/-- The unspent-coins dict during `try_append`. -/
abbrev UMap := List (TransactionInput × TransactionTarget)

/-- `inp in unspent_coins`: dict key membership on full `TransactionInput`
values. -/
def containsKey (m : UMap) (k : TransactionInput) : Bool :=
  m.any (fun p => decide (p.1 = k))

/-- `del unspent_coins[inp]`. -/
def eraseKey (m : UMap) (k : TransactionInput) : UMap :=
  m.eraseP (fun p => decide (p.1 = k))

/-- The inner `for inp in t.inputs` loop: a missing key returns `None`
(modelled as `none`), otherwise the key is deleted. -/
def processInputs (m : UMap) : List TransactionInput → Option UMap
  | [] => some m
  | inp :: rest => if containsKey m inp then processInputs (eraseKey m inp) rest else none

/-- Processing one transaction of the block: the input loop, then the
`for i, target in enumerate(t.targets)` loop.  The latter executes
`unspent_coins[TransactionInput(t.get_hash(), i)] = target`, calling the
3-field `TransactionInput` namedtuple with only 2 arguments; on a nonempty
target list this raises `TypeError` (modelled as `.error ()`). -/
def processTx (m : UMap) (t : Transaction) : Except Unit (Option UMap) :=
  match processInputs m t.inputs with
  | none => .ok none
  | some m2 =>
    match t.targets with
    | [] => .ok (some m2)
    | _ :: _ => .error ()

/-- The outer `for t in block.transactions` loop. -/
def processTxs (m : UMap) : List Transaction → Except Unit (Option UMap)
  | [] => .ok (some m)
  | t :: ts => do
    match ← processTx m t with
    | none => .ok none
    | some m2 => processTxs m2 ts

/-- Statement-level translation of `Blockchain.try_append`.  The method reads
`self.unspent_coins` through `.copy()`, builds a fresh `Blockchain` object and
never assigns to any field of `self`; the first component returns the caller's
object state at exit, reassembled field by field from the (unmodified) input.
The second component is the return value: `.ok none` for the `return None`
paths, `.error ()` for a raised exception. -/
def Blockchain.tryAppendSt (pw : HVal → List Nat) (now : Int) (self : Blockchain) (b : Block) :
    Blockchain × Except Unit (Option Blockchain) :=
  let res : Except Unit (Option Blockchain) := do
    match ← processTxs self.unspent_coins b.transactions with
    | none => .ok none
    | some m2 =>
      let chain : Blockchain :=
        { blocks := self.blocks ++ [b]
          block_indices := dictSet self.block_indices b.hash self.blocks.length
          unspent_coins := m2 }
      let v ← b.verify pw now chain
      if ¬ v then .ok none else .ok (some chain)
  ({ blocks := self.blocks, block_indices := self.block_indices,
     unspent_coins := self.unspent_coins }, res)

/-- The return value of `try_append`. -/
def Blockchain.tryAppend (pw : HVal → List Nat) (now : Int) (self : Blockchain) (b : Block) :
    Except Unit (Option Blockchain) :=
  (self.tryAppendSt pw now b).2

/-- The chain returned by a `try_append` call, if any: `none` both for the
`return None` paths and for a raised exception. -/
def acceptedChain : Except Unit (Option Blockchain) → Option Blockchain
  | .ok (some c) => some c
  | _ => none

/-! ## Script interpreter (`src/src/scriptinterpreter.py`) -/

/-- The external cryptographic operations used by the interpreter, left
abstract: `shaHex s` is `hexlify(sha256(s.encode()).digest())`, `keyOk`
tells whether `Key.from_json_compatible` succeeds on a popped string, `hexOk`
whether `unhexlify` succeeds on a popped signature string, and `verify` is
`Key.verify_sign` against the transaction hash. -/
structure SigOracle where
  shaHex : String → String
  keyOk : String → Bool
  hexOk : String → Bool
  verify : String → String → HVal → Bool

/-- The `operations` set of `ScriptInterpreter`. -/
def scriptOps : List String := ["OP_SHA256", "OP_CHECKSIG", "OP_RETURN", "OP_CHECKLOCKTIME"]

/-- Decimal digit list to its value. -/
def decVal (cs : List Char) : Nat :=
  cs.foldl (fun n c => 10 * n + (c.toNat - 48)) 0

/-- Python `float(s)` on an unsigned decimal literal `digits[.digits]`;
other forms raise `ValueError` (modelled as `none`; exotic inputs such as
exponents or `inf` are outside the scope of the claims). -/
def parseUnsigned? (cs : List Char) : Option ℚ :=
  match cs.splitOn '.' with
  | [a] => if a ≠ [] ∧ a.all Char.isDigit then some (decVal a : ℚ) else none
  | [a, b] =>
    if (a ≠ [] ∨ b ≠ []) ∧ a.all Char.isDigit ∧ b.all Char.isDigit then
      some ((decVal a : ℚ) + (decVal b : ℚ) / (10 ^ b.length : ℚ))
    else none
  | _ => none

/-- Python `float(s)` with an optional leading minus sign. -/
def pyFloat? (s : String) : Option ℚ :=
  match s.data with
  | '-' :: rest => (parseUnsigned? rest).map (fun q => -q)
  | cs => parseUnsigned? cs

/-- One opcode execution on the stack (top of stack at the head).  The opcode
methods signal failure by pushing `"0"` and returning `False`, but
`execute_script` ignores the return value, so only the stack effect matters;
`none` models a raised exception.

* `op_sha256` on an empty stack only logs; otherwise it replaces the top by
  the hex digest.
* `op_checksig` with fewer than two elements pushes `"0"`; otherwise it pops
  the key and the signature (raising on an unparsable key or non-hex
  signature) and pushes `"1"`/`"0"`.
* `op_return` pushes `"0"`.
* `op_checklocktime` computes its empty/short-stack error flag but pops
  *before* acting on it: `float(self.stack.pop())` raises `IndexError` on an
  empty stack and `ValueError` on a non-numeric top; with one element, or with
  a timestamp still in the future (`> now`, in seconds), it pushes `"0"`;
  otherwise it just consumes the timestamp. -/
def opStep (o : SigOracle) (now : ℚ) (txh : HVal) : String → List String → Option (List String)
  | "OP_SHA256", st =>
    match st with
    | [] => some []
    | s :: r => some (o.shaHex s :: r)
  | "OP_CHECKSIG", st =>
    if st.length < 2 then some ("0" :: st)
    else
      match st with
      | pk :: sg :: r =>
        if ¬ o.keyOk pk then none
        else if ¬ o.hexOk sg then none
        else if o.verify pk sg txh then some ("1" :: r) else some ("0" :: r)
      | _ => none
  | "OP_RETURN", st => some ("0" :: st)
  | "OP_CHECKLOCKTIME", st =>
    match st with
    | [] => none
    | top :: rest =>
      match pyFloat? top with
      | none => none
      | some q => if st.length < 2 ∨ q > now then some ("0" :: rest) else some rest
  | _, st => some st

/-- The `while script:` loop of `execute_script`: tokens not in `operations`
are pushed as data, opcodes are executed (their boolean result discarded). -/
def runScript (o : SigOracle) (now : ℚ) (txh : HVal) :
    List String → List String → Option (List String)
  | [], st => some st
  | tok :: rest, st =>
    if tok ∈ scriptOps then
      match opStep o now txh tok st with
      | none => none
      | some st2 => runScript o now txh rest st2
    else runScript o now txh rest (tok :: st)

/-- `ScriptInterpreter.execute_script` on the token lists of the unlock
(`input_script`) and lock (`output_script`) scripts: run
`input_script.split() + output_script.split()` from an empty stack; succeed
iff exactly one element remains and it is `"1"`.  `none` models an uncaught
exception escaping `execute_script`. -/
def executeScript (o : SigOracle) (now : ℚ) (txh : HVal)
    (input_script output_script : List String) : Option Bool :=
  match runScript o now txh (input_script ++ output_script) [] with
  | none => none
  | some st => some (decide (st.length = 1 ∧ st.head? = some "1"))

/-! ## Chain builder mempool admission (`src/src/chainbuilder.py` lines 155-169) -/

/-- The chain-builder state read by `new_transaction_received`: the key set of
`primary_block_chain.unspent_coins` as the chain builder populates it
(`(tx_hash, output_idx)` pairs, cf. `ChainBuilder.__init__` and
`Transaction.validate_tx`) and the `unconfirmed_transactions` dict. -/
structure CBState where
  unspent_pairs : List (HVal × Int)
  mempool : List (HVal × Transaction)
deriving DecidableEq

/-- The local `input_ok` predicate: the input's `(transaction_hash,
output_idx)` pair is an unspent coin, or its `transaction_hash` is a key of
the mempool (the output index is not inspected in the second case). -/
def inputOk (st : CBState) (inp : TransactionInput) : Bool :=
  st.unspent_pairs.any (fun p => decide (p.1 = inp.transaction_hash ∧ p.2 = inp.output_idx)) ||
  st.mempool.any (fun p => decide (p.1 = inp.transaction_hash))

/-- `ChainBuilder.new_transaction_received`: insert and broadcast iff the hash
is not yet in the mempool and every input passes `input_ok`.  The returned
boolean is whether the transaction was inserted and broadcast. -/
def newTransactionReceived (st : CBState) (t : Transaction) : CBState × Bool :=
  let h := t.getHash
  if st.mempool.any (fun p => decide (p.1 = h)) then (st, false)
  else if t.inputs.all (inputOk st) then
    ({ st with mempool := st.mempool ++ [(h, t)] }, true)
  else (st, false)

/-! ## C1 — the proof-of-work predicate -/

theorem intFromBytesBE_append_one (xs : List Nat) (b : Nat) :
    intFromBytesBE (xs ++ [b]) = 256 * intFromBytesBE xs + b := by
  simp [intFromBytesBE, List.foldl_append]

theorem intFromBytesBE_reverse (l : List Nat) :
    intFromBytesBE l.reverse = intFromBytesLE l := by
  induction l with
  | nil => rfl
  | cons b r ih =>
    simp only [List.reverse_cons, intFromBytesBE_append_one, ih, intFromBytesLE]
    ring

/-- The hash bytes of the C1 counterexample block: 31 zero bytes followed by a
single 1, so the big-endian value is 1 while the little-endian value is
`2^248`. -/
def powHash0 : List Nat := List.replicate 31 0 ++ [1]

/-- C1, counterexample.  The claim says `verify_proof_of_work` is true iff the
big-endian value of the hash is below the block's difficulty-target.  For the
hash `powHash0` and difficulty 1000 the big-endian value is `1 < 1000`, yet
the source function (little-endian, compared *above* the threshold
`MAX_HASH - MAX_HASH // difficulty`) returns `False`. -/
theorem verify_proof_of_work_not_big_endian_lt :
    intFromBytesBE powHash0 < 1000 ∧ verify_proof_of_work powHash0 1000 = .ok false := by
  constructor
  · decide
  · decide

/-- C1, amended: `verify_proof_of_work` returns true iff the hash interpreted
as a *little-endian* unsigned integer (equivalently: the reversed byte string
read big-endian) is strictly *greater* than `MAX_HASH - MAX_HASH //
difficulty`, with `MAX_HASH = 2^512 - 1`; a zero difficulty raises
`ZeroDivisionError`. -/
theorem verify_proof_of_work_little_endian_gt (hashBytes : List Nat) (d : Int) (hd : d ≠ 0) :
    (verify_proof_of_work hashBytes d = .ok true ↔
      (intFromBytesBE hashBytes.reverse : Int) > (MAX_HASH : Int) - Int.fdiv MAX_HASH d) := by
  simp [verify_proof_of_work, hd, intFromBytesBE_reverse]

theorem verify_proof_of_work_little_endian_gt_witness :
    (1000 : Int) ≠ 0 ∧
    (verify_proof_of_work (List.replicate 64 255) 1000 = .ok true ↔
      (intFromBytesBE (List.replicate 64 255).reverse : Int) >
        (MAX_HASH : Int) - Int.fdiv MAX_HASH 1000) :=
  ⟨by decide, verify_proof_of_work_little_endian_gt (List.replicate 64 255) 1000 (by decide)⟩

/-! ## C3 — the block reward -/

/-- A minimal second block for the reward computation: only its hash matters
(`compute_blockreward` reads nothing else). -/
def c3Block1 : Block :=
  { hash := .bytes [1]
    prev_block_hash := GENESIS_BLOCK_HASH
    merkle_root_hash := emptyMerkleRoot
    time := GENESIS_TIME + 1
    nonce := 0
    height := 1000
    difficulty := 1000
    transactions := [] }

/-- A two-block chain whose head `c3Block1` sits at index `l = 1`. -/
def c3Chain : Blockchain :=
  { blocks := [GENESIS_BLOCK, c3Block1]
    block_indices := [(GENESIS_BLOCK_HASH, 0), (HVal.bytes [1], 1)]
    unspent_coins := [] }

/-- C3, failing input.  For the predecessor at index `l = 1` (height
`h = l + 1 = 2`) the spec formula `GENESIS_REWARD >> (h / REWARD_HALF_LIFE)`
gives 1000 — the value also computed by the repository's own
`compute_blockreward_next_block` in `src/src/utils.py` — but
`Blockchain.compute_blockreward` returns 500: its `while l > 0: l -= 10000;
reward //= 2` loop halves once per *started* 10000-block period, so the first
halving already happens at `l = 1` instead of `l = 10000`, contradicting the
`config.py` docstring ("the reward that is available for the first
`REWARD_HALF_LIFE` blocks"). -/
theorem compute_blockreward_halves_too_early :
    c3Chain.computeBlockreward c3Block1 = .ok 500 ∧
    compute_blockreward_next_block 2 = 1000 ∧
    GENESIS_REWARD / (2 : Int) ^ ((2 : Nat) / 10000) = 1000 := by
  refine ⟨by decide, by decide, by decide⟩

/-! ## C4 — block heights -/

/-- A block on top of the genesis chain that `verify_prev_block` accepts: its
height is `prev.height + difficulty = 0 + 1000`, not `prev.height + 1`. -/
def c4Block : Block :=
  { hash := .bytes [7]
    prev_block_hash := GENESIS_BLOCK_HASH
    merkle_root_hash := emptyMerkleRoot
    time := GENESIS_TIME + 1
    nonce := 0
    height := 1000
    difficulty := 1000
    transactions := [] }

/-- C4, counterexample: a non-genesis block accepted by `verify_prev_block`
whose height is not its predecessor's height plus one (it is the
predecessor's height plus the block's difficulty). -/
theorem verify_prev_block_height_counterexample :
    c4Block.verifyPrevBlock Blockchain.init = .ok true ∧
    c4Block.hash ≠ GENESIS_BLOCK_HASH ∧
    c4Block.height ≠ GENESIS_BLOCK.height + 1 := by
  refine ⟨by decide, by decide, by decide⟩

/-- C4, amended: every non-genesis block accepted by `verify_prev_block` has
`height = prev.height + difficulty` — height is accumulated difficulty (as the
docstring in `src/src/block.py` states), not the chain index. -/
theorem verify_prev_block_height_accumulates (chain : Blockchain) (b prev : Block)
    (hg : b.hash ≠ GENESIS_BLOCK_HASH)
    (hprev : chain.getBlockByHash b.prev_block_hash = .ok (some prev))
    (hok : b.verifyPrevBlock chain = .ok true) :
    b.height = prev.height + b.difficulty := by
  unfold Block.verifyPrevBlock at hok
  rw [if_neg hg] at hok
  rw [hprev] at hok
  simp only [Bind.bind, Except.bind] at hok
  cases hd : chain.computeDifficulty prev with
  | error e => rw [hd] at hok; simp [Except.bind] at hok
  | ok d =>
    rw [hd] at hok
    simp only [Except.bind] at hok
    by_cases h1 : b.difficulty ≠ d
    · rw [if_pos h1] at hok; simp at hok
    · rw [if_neg h1] at hok
      by_cases h2 : prev.height + b.difficulty ≠ b.height
      · rw [if_pos h2] at hok; simp at hok
      · omega

theorem verify_prev_block_height_accumulates_witness :
    c4Block.height = GENESIS_BLOCK.height + c4Block.difficulty :=
  verify_prev_block_height_accumulates Blockchain.init c4Block GENESIS_BLOCK
    (by decide) (by decide) (by decide)

/-! ## C7 — totality of the script interpreter -/

/-- A concrete oracle for closed evaluations (its values are irrelevant to the
statements it appears in). -/
def nullOracle : SigOracle :=
  { shaHex := fun _ => ""
    keyOk := fun _ => false
    hexOk := fun _ => false
    verify := fun _ _ _ => false }

/-- C7, failing input: an empty unlock script against the lock script
`"OP_CHECKLOCKTIME"`.  `op_checklocktime` records its empty-stack error flag
but executes `float(self.stack.pop())` before consulting it, so the call
raises an uncaught `IndexError` instead of returning a boolean: the modelled
execution is `none` (a crash), not `some false`. -/
theorem execute_script_checklocktime_crashes :
    executeScript nullOracle 0 (.bytes []) [] ["OP_CHECKLOCKTIME"] = none := by
  decide

/-! ## C8 — transaction hash ignores unlock scripts -/

/-- C8: two transactions agreeing on `iv`, targets, timestamps and on every
input's `(prev_tx_hash, output_index)` hash identically, whatever their
inputs' `sig_script` fields are: `get_hash` never absorbs unlock scripts. -/
theorem transaction_hash_ignores_sig_scripts (t1 t2 : Transaction)
    (hiv : t1.iv = t2.iv) (htg : t1.targets = t2.targets)
    (hts : t1.timestamp = t2.timestamp)
    (hin : t1.inputs.map (fun i => (i.transaction_hash, i.output_idx)) =
           t2.inputs.map (fun i => (i.transaction_hash, i.output_idx))) :
    t1.getHash = t2.getHash := by
  have hlen : t1.inputs.length = t2.inputs.length := by
    have := congrArg List.length hin
    simpa using this
  have hmap : ∀ (l : List TransactionInput),
      l.map (fun i => [i.transaction_hash, HVal.bytes (int_to_bytes i.output_idx)]) =
      (l.map (fun i => (i.transaction_hash, i.output_idx))).map
        (fun p => [p.1, HVal.bytes (int_to_bytes p.2)]) := by
    intro l
    rw [List.map_map]
    rfl
  unfold Transaction.getHash txChunks
  rw [hiv, htg, hlen, hmap t1.inputs, hmap t2.inputs, hin]

/-- Two concrete transactions differing only in an input's unlock script. -/
def c8T1 : Transaction :=
  { inputs := [⟨.bytes [3], 0, "unlockA"⟩]
    targets := [⟨"k OP_CHECKSIG", 5⟩]
    timestamp := 17
    iv := none }

/-- `c8T1` with a different unlock script. -/
def c8T2 : Transaction :=
  { inputs := [⟨.bytes [3], 0, "unlockB"⟩]
    targets := [⟨"k OP_CHECKSIG", 5⟩]
    timestamp := 17
    iv := none }

theorem transaction_hash_ignores_sig_scripts_witness :
    c8T1.getHash = c8T2.getHash :=
  transaction_hash_ignores_sig_scripts c8T1 c8T2 rfl rfl rfl rfl

/-! ## C10 — mempool admission -/

/-- C10, amended: `new_transaction_received` inserts and broadcasts iff the
hash is new and every input's pair is a confirmed unspent coin *or its
`prev_tx_hash` is the key of some pending mempool transaction* — the output
index is not checked against the pending transaction's outputs; otherwise the
state is unchanged. -/
theorem new_transaction_received_admission (st : CBState) (t : Transaction) :
    ((newTransactionReceived st t).2 = true ↔
      ((¬ ∃ p ∈ st.mempool, p.1 = t.getHash) ∧
        ∀ inp ∈ t.inputs,
          (∃ p ∈ st.unspent_pairs, p.1 = inp.transaction_hash ∧ p.2 = inp.output_idx) ∨
          ∃ p ∈ st.mempool, p.1 = inp.transaction_hash)) ∧
    ((newTransactionReceived st t).2 = false → (newTransactionReceived st t).1 = st) ∧
    ((newTransactionReceived st t).2 = true →
      (newTransactionReceived st t).1.mempool = st.mempool ++ [(t.getHash, t)]) := by
  unfold newTransactionReceived
  by_cases h1 : st.mempool.any (fun p => decide (p.1 = t.getHash))
  · rw [if_pos h1]
    simp only [List.any_eq_true, decide_eq_true_eq] at h1
    refine ⟨iff_of_false (by simp) ?_, fun _ => rfl, ?_⟩
    · intro hx
      exact hx.1 h1
    · intro h
      cases h
  · rw [if_neg h1]
    simp only [List.any_eq_true, decide_eq_true_eq] at h1
    by_cases h2 : t.inputs.all (inputOk st)
    · rw [if_pos h2]
      simp only [List.all_eq_true, inputOk, Bool.or_eq_true, List.any_eq_true,
        decide_eq_true_eq] at h2
      refine ⟨iff_of_true rfl ⟨h1, h2⟩, ?_, fun _ => rfl⟩
      intro h
      cases h
    · rw [if_neg h2]
      simp only [List.all_eq_true, inputOk, Bool.or_eq_true, List.any_eq_true,
        decide_eq_true_eq] at h2
      refine ⟨iff_of_false (by simp) ?_, fun _ => rfl, ?_⟩
      · intro hx
        exact h2 hx.2
      · intro h
        cases h

/-- A pending mempool transaction with exactly one output. -/
def c10P : Transaction :=
  { inputs := []
    targets := [⟨"k OP_CHECKSIG", 5⟩]
    timestamp := 0
    iv := some [1] }

/-- A chain-builder state: no confirmed unspent coins, and `c10P` pending. -/
def c10State : CBState :=
  { unspent_pairs := []
    mempool := [(c10P.getHash, c10P)] }

/-- A transaction spending output index 5 of `c10P`, which has only one
output (index 0). -/
def c10T : Transaction :=
  { inputs := [⟨c10P.getHash, 5, "s"⟩]
    targets := []
    timestamp := 1
    iv := none }

/-- C10, counterexample: `c10T` is inserted and broadcast although its only
input resolves to no output of the pending transaction (index 5 of a
single-output transaction) and to no confirmed unspent coin — the code tests
only the `prev_tx_hash` against the mempool keys. -/
theorem new_transaction_received_admits_dangling_output_index :
    (newTransactionReceived c10State c10T).2 = true ∧
    (newTransactionReceived c10State c10T).1.mempool ≠ c10State.mempool ∧
    (¬ ∃ p ∈ c10State.unspent_pairs,
        p.1 = HVal.digest (txChunks c10P) ∧ p.2 = (5 : Int)) ∧
    (¬ ∃ p ∈ c10State.mempool,
        p.1 = HVal.digest (txChunks c10P) ∧ (5 : Int) < p.2.targets.length) := by
  refine ⟨by decide, by decide, by decide, by decide⟩

/-! ## C6 — OP_RETURN locks -/

theorem runScript_append (o : SigOracle) (now : ℚ) (txh : HVal)
    (xs ys : List String) (st : List String) :
    runScript o now txh (xs ++ ys) st =
      match runScript o now txh xs st with
      | none => none
      | some st2 => runScript o now txh ys st2 := by
  induction xs generalizing st with
  | nil => simp [runScript]
  | cons tok rest ih =>
    simp only [List.cons_append, runScript]
    by_cases h : tok ∈ scriptOps
    · rw [if_pos h, if_pos h]
      cases opStep o now txh tok st with
      | none => rfl
      | some st2 => exact ih st2
    · rw [if_neg h, if_neg h]
      exact ih (tok :: st)

/-- C6, counterexample: the lock script `"OP_RETURN OP_CHECKLOCKTIME"`
contains `OP_RETURN`, yet the unlock script `"1"` spends it: `execute_script`
discards opcode return values, so `op_return` merely pushes `"0"`, which the
following `op_checklocktime` pops again (as the timestamp 0), leaving exactly
`["1"]` on the stack. -/
theorem op_return_mid_script_spendable :
    "OP_RETURN" ∈ ["OP_RETURN", "OP_CHECKLOCKTIME"] ∧
    executeScript nullOracle 0 (.bytes []) ["1"] ["OP_RETURN", "OP_CHECKLOCKTIME"] = some true := by
  refine ⟨by decide, by decide⟩

/-- C6, amended: a lock script whose *final* token is `OP_RETURN` (as produced
by `TransactionTarget.burn`) can never be spent: for every unlock script,
transaction hash, current time and crypto oracle, `execute_script` does not
succeed — the final `op_return` leaves `"0"` on top of the stack, and earlier
crashes abort execution entirely. -/
theorem op_return_last_never_spendable (o : SigOracle) (now : ℚ) (txh : HVal)
    (unlock lock : List String) (hlast : lock.getLast? = some "OP_RETURN") :
    executeScript o now txh unlock lock ≠ some true := by
  have hne : lock ≠ [] := by
    intro h
    rw [h] at hlast
    cases hlast
  have hsplit : lock.dropLast ++ ["OP_RETURN"] = lock := by
    have := List.dropLast_append_getLast hne
    rwa [List.getLast_eq_iff_getLast?_eq_some hne |>.mpr hlast] at this
  rw [← hsplit]
  unfold executeScript
  rw [show unlock ++ (lock.dropLast ++ ["OP_RETURN"]) =
        (unlock ++ lock.dropLast) ++ ["OP_RETURN"] by simp]
  rw [runScript_append]
  cases runScript o now txh (unlock ++ lock.dropLast) [] with
  | none => simp
  | some st =>
    have hrun : runScript o now txh ["OP_RETURN"] st = some ("0" :: st) := by
      simp [runScript, scriptOps, opStep]
    simp only [hrun]
    simp

theorem op_return_last_never_spendable_witness :
    ([("data" : String), "OP_RETURN"].getLast? = some "OP_RETURN") ∧
    executeScript nullOracle 0 (.bytes []) ["x"] ["data", "OP_RETURN"] ≠ some true :=
  ⟨by decide,
   op_return_last_never_spendable nullOracle 0 (.bytes []) ["x"] ["data", "OP_RETURN"] (by decide)⟩

/-! ## C9 — functional extension -/

/-- C9: `try_append` leaves the caller's `Blockchain` unchanged — the
statement-level translation returns the caller's state at exit, and it equals
the input; on acceptance the result is a distinct object whose block list is
the old list followed by the new block. -/
theorem try_append_functional (pw : HVal → List Nat) (now : Int) (C : Blockchain) (b : Block) :
    (C.tryAppendSt pw now b).1 = C ∧
    ∀ c, acceptedChain (C.tryAppendSt pw now b).2 = some c →
      c.blocks = C.blocks ++ [b] ∧ c ≠ C := by
  constructor
  · rfl
  · intro c hc
    unfold Blockchain.tryAppendSt at hc
    simp only [Bind.bind] at hc
    cases hpt : processTxs C.unspent_coins b.transactions with
    | error e => rw [hpt] at hc; simp [Except.bind, acceptedChain] at hc
    | ok r =>
      rw [hpt] at hc
      cases r with
      | none => simp [Except.bind, acceptedChain] at hc
      | some m2 =>
        simp only [Except.bind] at hc
        cases hv : b.verify pw now
            { blocks := C.blocks ++ [b]
              block_indices := dictSet C.block_indices b.hash C.blocks.length
              unspent_coins := m2 } with
        | error e => rw [hv] at hc; simp [acceptedChain] at hc
        | ok v =>
          rw [hv] at hc
          cases v with
          | false => simp [acceptedChain] at hc
          | true =>
            simp [acceptedChain] at hc
            subst hc
            refine ⟨rfl, ?_⟩
            intro h
            have := congrArg (fun x => x.blocks.length) h
            simp at this

/-! ## C5 — difficulty retargeting -/

theorem if_lt_max (x a : ℚ) : (if x < a then a else x) = max a x := by
  rcases le_or_lt a x with h | h
  · rw [if_neg (not_lt.mpr h), max_eq_right h]
  · rw [if_pos h, max_eq_left h.le]

/-- The behaviour of `compute_difficulty` for a predecessor found at index
`l`: the difficulty is inherited unchanged except when `l + 1` is a multiple
of the function's own `BLOCK_INTERVAL = 120`, where it is the previous
difficulty rescaled by `target_duration / actual_duration` and clamped from
below at `blocks[0].difficulty`. -/
theorem computeDifficulty_spec (c : Blockchain) (prev : Block) (l : Nat)
    (hl : lookupIdx c.block_indices prev.hash = some l) :
    ((l + 1) % 120 ≠ 0 → c.computeDifficulty prev = .ok prev.difficulty) ∧
    (∀ b0 g, (l + 1) % 120 = 0 →
      c.blocks[l + 1 - 120]? = some b0 → c.blocks[0]? = some g →
      prev.time ≠ b0.time →
      c.computeDifficulty prev =
        .ok (pyTrunc (max (g.difficulty : ℚ)
          ((prev.difficulty : ℚ) * (BLOCK_TARGET_TIMEDELTA_US : ℚ) /
            ((prev.time - b0.time : Int) : ℚ))))) := by
  constructor
  · intro hmod
    unfold Blockchain.computeDifficulty
    rw [hl]
    dsimp only []
    rw [if_pos hmod]
  · intro b0 g hmod hb0 hg0 hne
    unfold Blockchain.computeDifficulty
    rw [hl]
    dsimp only []
    rw [if_neg (by omega)]
    rw [hb0, hg0]
    dsimp only []
    rw [if_neg (sub_ne_zero_of_ne hne)]
    have hdur : ((prev.time - b0.time : Int) : ℚ) ≠ 0 := by
      exact_mod_cast sub_ne_zero_of_ne hne
    have harith : (prev.difficulty : ℚ) * 120 / ((prev.time - b0.time : Int) : ℚ) *
        (BLOCK_TARGET_TIMEDELTA_US : ℚ) / 120 =
        (prev.difficulty : ℚ) * (BLOCK_TARGET_TIMEDELTA_US : ℚ) /
          ((prev.time - b0.time : Int) : ℚ) := by
      have hdur2 : (prev.time : ℚ) - (b0.time : ℚ) ≠ 0 := by
        push_cast at hdur
        exact hdur
      push_cast
      field_simp
      ring
    rw [harith, if_lt_max]

/-- The blocks of the C5 counterexample chain: 120 trivial blocks with
pairwise distinct hashes, difficulty 1000 throughout, block 0 at time 0 and
block 119 at 30000000 µs (a 30-second window). -/
def c5Block (i : Nat) : Block :=
  { hash := .bytes [i % 256, i / 256]
    prev_block_hash := .bytes []
    merkle_root_hash := emptyMerkleRoot
    time := if i = 119 then 30000000 else (i : Int) * 250000
    nonce := 0
    height := (i : Int)
    difficulty := 1000
    transactions := [] }

/-- A 120-block chain whose head sits at index 119, so the next block is at a
retargeting boundary (`120 % 120 = 0`). -/
def c5Chain : Blockchain :=
  { blocks := (List.range 120).map c5Block
    block_indices := (List.range 120).map (fun i => (HVal.bytes [i % 256, i / 256], i))
    unspent_coins := [] }

/-- C5, counterexample.  At the retargeting point after block 119, with a
30-second actual window against the 60-second target, the code returns
`1000 * 60/30 = 2000`: the difficulty value is rescaled by
`target/actual`, the *inverse* of the claim's `actual/target` ratio, and the
claim's value (500 rescaled, or 1000 after either reading of the clamp)
differs from the code's result.  Moreover the code retargets at multiples of
its local constant 120, not of `DIFFICULTY_BLOCK_INTERVAL = 5`: with l+1 = 10
(a multiple of 5) the difficulty is returned unchanged. -/
theorem compute_difficulty_counterexample :
    c5Chain.computeDifficulty (c5Block 119) = .ok 2000 ∧
    pyTrunc (((c5Block 119).difficulty : ℚ) * ((30000000 : ℚ) / 60000000)) = 500 ∧
    ((2000 : Int) ≠ 500 ∧ (2000 : Int) ≠ 1000) ∧
    ((9 + 1) % DIFFICULTY_BLOCK_INTERVAL = 0 ∧
      c5Chain.computeDifficulty (c5Block 9) = .ok (c5Block 9).difficulty) := by
  refine ⟨?_, ?_, ⟨by decide, by decide⟩, by decide, ?_⟩
  · have h := (computeDifficulty_spec c5Chain (c5Block 119) 119 (by decide)).2
      (c5Block 0) (c5Block 0) (by norm_num) (by decide) (by decide) (by decide)
    rw [h]
    norm_num [c5Block, BLOCK_TARGET_TIMEDELTA_US, pyTrunc]
  · norm_num [c5Block, pyTrunc]
  · exact (computeDifficulty_spec c5Chain (c5Block 9) 9 (by decide)).1 (by norm_num)

/-- C5, amended: `compute_difficulty` retargets at multiples of its own local
`BLOCK_INTERVAL = 120` (config's `DIFFICULTY_BLOCK_INTERVAL = 5` is unused),
inherits `prev.difficulty` unchanged elsewhere, and at a boundary returns the
previous difficulty rescaled by `DIFFICULTY_TARGET_TIMEDELTA / actual
window duration` (in difficulty-as-expected-hash-count terms; larger is
harder), truncated to an integer after clamping from below at the genesis
difficulty, so the result is never easier (lower) than the genesis value. -/
theorem compute_difficulty_retarget (c : Blockchain) (prev : Block) (l : Nat)
    (hl : lookupIdx c.block_indices prev.hash = some l) :
    ((l + 1) % 120 ≠ 0 → c.computeDifficulty prev = .ok prev.difficulty) ∧
    (∀ b0 g, (l + 1) % 120 = 0 →
      c.blocks[l + 1 - 120]? = some b0 → c.blocks[0]? = some g →
      prev.time ≠ b0.time →
      c.computeDifficulty prev =
        .ok (pyTrunc (max (g.difficulty : ℚ)
          ((prev.difficulty : ℚ) * (BLOCK_TARGET_TIMEDELTA_US : ℚ) /
            ((prev.time - b0.time : Int) : ℚ))))) :=
  computeDifficulty_spec c prev l hl

theorem compute_difficulty_retarget_witness :
    Blockchain.init.computeDifficulty GENESIS_BLOCK = .ok GENESIS_BLOCK.difficulty :=
  (compute_difficulty_retarget Blockchain.init GENESIS_BLOCK 0 (by decide)).1 (by decide)

/-! ## C2 — rejection of unavailable and doubly-spent inputs -/

theorem verify_ok_true_parts (pw : HVal → List Nat) (now : Int) (b : Block) (chain : Blockchain)
    (h : b.verify pw now chain = .ok true) :
    b.verifyDifficulty pw = .ok true ∧ b.verifyMerkle = true ∧
    b.verifyTransactions chain = .ok true := by
  unfold Block.verify at h
  by_cases h0 : b.height = 0 ∧ b.hash ≠ GENESIS_BLOCK_HASH
  · rw [if_pos h0] at h
    cases h
  · rw [if_neg h0] at h
    simp only [Bind.bind] at h
    cases hd : b.verifyDifficulty pw with
    | error e => rw [hd] at h; simp [Except.bind] at h
    | ok dv =>
      rw [hd] at h
      simp only [Except.bind] at h
      cases dv with
      | false => simp at h
      | true =>
        rw [if_neg (by simp)] at h
        cases hm : b.verifyMerkle with
        | false => rw [hm] at h; simp at h
        | true =>
          rw [hm] at h
          rw [if_neg (by simp)] at h
          cases hp : b.verifyPrevBlock chain with
          | error e => rw [hp] at h; simp [Except.bind] at h
          | ok pv =>
            rw [hp] at h
            simp only [Except.bind] at h
            cases pv with
            | false => simp at h
            | true =>
              rw [if_neg (by simp)] at h
              cases ht : b.verifyTransactions chain with
              | error e => rw [ht] at h; simp [Except.bind] at h
              | ok tv =>
                rw [ht] at h
                simp only [Except.bind] at h
                cases tv with
                | false => simp at h
                | true => exact ⟨rfl, rfl, rfl⟩

theorem verifyTransactions_ok_true (b : Block) (chain : Blockchain)
    (h : b.verifyTransactions chain = .ok true) :
    b.hash = GENESIS_BLOCK_HASH ∨ b.transactions = [] := by
  unfold Block.verifyTransactions at h
  by_cases hg : b.hash = GENESIS_BLOCK_HASH
  · exact Or.inl hg
  · rw [if_neg hg] at h
    simp only [Bind.bind] at h
    right
    cases hb : chain.getBlockByHash b.prev_block_hash with
    | error e => rw [hb] at h; simp [Except.bind] at h
    | ok r =>
      rw [hb] at h
      simp only [Except.bind] at h
      cases r with
      | none => simp at h
      | some prev =>
        cases hts : b.transactions with
        | nil => rfl
        | cons t ts => rw [hts] at h; simp at h

theorem verifyDifficulty_ok_true_hash (pw : HVal → List Nat) (b : Block)
    (h : b.verifyDifficulty pw = .ok true) : b.hash = b.getHash := by
  unfold Block.verifyDifficulty at h
  by_cases hx : b.hash ≠ b.getHash
  · rw [if_pos hx] at h
    cases h
  · exact not_ne_iff.mp hx

theorem getHash_genesis_merkle (b : Block) (h : b.getHash = GENESIS_BLOCK_HASH) :
    b.merkle_root_hash = emptyMerkleRoot := by
  unfold GENESIS_BLOCK_HASH Block.getHash at h
  injection h with h2
  simp only [headerChunks, List.cons.injEq] at h2
  exact h2.2.1

/-- A hash value that can appear as a Merkle level element: the digest of a
chunk list other than the two empty chunks of the empty-tree root. -/
def goodRoot (x : HVal) : Prop :=
  ∃ cs, x = .digest cs ∧ cs ≠ [HVal.bytes [], HVal.bytes []]

theorem flatten_pairs_length {α β : Type} (l : List α) (f : α → List β)
    (hf : ∀ a, (f a).length = 2) : ((l.map f).flatten).length = 2 * l.length := by
  induction l with
  | nil => simp
  | cons a r ih =>
    simp [hf, ih]
    omega

theorem txChunks_ne_pair (t : Transaction) :
    txChunks t ≠ [HVal.bytes [], HVal.bytes []] := by
  intro h
  cases hiv : t.iv with
  | none =>
    unfold txChunks at h
    rw [hiv] at h
    simp only [List.nil_append, List.cons_append, List.cons.injEq] at h
    exact int_to_bytes_ne_nil _ (HVal.bytes.inj h.1)
  | some v =>
    unfold txChunks at h
    rw [hiv] at h
    have hlen := congrArg List.length h
    simp only [List.length_append, List.length_cons, List.length_nil,
      flatten_pairs_length t.targets
        (fun tg => [HVal.bytes (int_to_bytes tg.amount), HVal.str tg.pubkey_script])
        (fun _ => rfl),
      flatten_pairs_length t.inputs
        (fun i => [i.transaction_hash, HVal.bytes (int_to_bytes i.output_idx)])
        (fun _ => rfl)] at hlen
    omega

theorem merkleStep_good : ∀ l : List HVal, (∀ x ∈ l, goodRoot x) →
    ∀ y ∈ merkleStep l, goodRoot y
  | [], _ => by
    intro y hy
    simp [merkleStep] at hy
  | [a], hl => by
    intro y hy
    simp only [merkleStep, List.mem_singleton] at hy
    subst hy
    obtain ⟨cs, ha, _⟩ := hl a (by simp)
    refine ⟨[a, .bytes []], rfl, ?_⟩
    rw [ha]
    simp
  | a :: b :: r, hl => by
    intro y hy
    simp only [merkleStep, List.mem_cons] at hy
    rcases hy with rfl | hy
    · obtain ⟨cs, ha, _⟩ := hl a (by simp)
      refine ⟨[a, b], rfl, ?_⟩
      rw [ha]
      simp
    · exact merkleStep_good r (fun x hx => hl x (by simp [hx])) y hy

theorem merkleLoopAux_good : ∀ (fuel : Nat) (l : List HVal), l ≠ [] →
    (∀ x ∈ l, goodRoot x) → goodRoot (merkleLoopAux fuel l)
  | _, [], h, _ => absurd rfl h
  | 0, [a], _, hl => hl a (by simp)
  | 0, a :: b :: r, _, hl => hl a (by simp)
  | fuel + 1, [a], _, hl => hl a (by simp)
  | fuel + 1, a :: b :: r, _, hl =>
    merkleLoopAux_good fuel (merkleStep (a :: b :: r)) (by simp [merkleStep])
      (merkleStep_good _ hl)

theorem merkleRootHash_ne_empty (ts : List Transaction) (h : ts ≠ []) :
    merkleRootHash ts ≠ emptyMerkleRoot := by
  cases ts with
  | nil => exact absurd rfl h
  | cons t ts' =>
    show merkleLoop ((t :: ts').map Transaction.getHash) ≠ emptyMerkleRoot
    unfold merkleLoop
    have hg : goodRoot (merkleLoopAux ((t :: ts').map Transaction.getHash).length
        ((t :: ts').map Transaction.getHash)) := by
      apply merkleLoopAux_good
      · simp
      · intro x hx
        simp only [List.mem_map] at hx
        obtain ⟨u, _, rfl⟩ := hx
        exact ⟨txChunks u, rfl, txChunks_ne_pair u⟩
    obtain ⟨cs, hcs, hne⟩ := hg
    intro hcontra
    rw [hcs] at hcontra
    unfold emptyMerkleRoot at hcontra
    injection hcontra with h2
    exact hne h2

/-- Any chain accepted by `try_append` carries an empty transaction list: the
per-transaction check (`t.verify`, missing on `Transaction`) raises for every
non-genesis block with transactions, and a forged genesis hash is ruled out by
the collision-free hash together with `verify_merkle` (a nonempty transaction
list can never produce the empty-tree Merkle root). -/
theorem tryAppend_accept_tx_nil (pw : HVal → List Nat) (now : Int) (C : Blockchain)
    (b : Block) (c : Blockchain)
    (h : acceptedChain (C.tryAppend pw now b) = some c) : b.transactions = [] := by
  unfold Blockchain.tryAppend Blockchain.tryAppendSt at h
  simp only [Bind.bind] at h
  cases hpt : processTxs C.unspent_coins b.transactions with
  | error e => rw [hpt] at h; simp [Except.bind, acceptedChain] at h
  | ok r =>
    rw [hpt] at h
    cases r with
    | none => simp [Except.bind, acceptedChain] at h
    | some m2 =>
      simp only [Except.bind] at h
      cases hv : b.verify pw now
          { blocks := C.blocks ++ [b]
            block_indices := dictSet C.block_indices b.hash C.blocks.length
            unspent_coins := m2 } with
      | error e => rw [hv] at h; simp [acceptedChain] at h
      | ok v =>
        rw [hv] at h
        cases v with
        | false => simp [acceptedChain] at h
        | true =>
          have parts := verify_ok_true_parts pw now b _ hv
          rcases verifyTransactions_ok_true b _ parts.2.2 with hgen | hnil
          · by_contra hne
            have hhash := verifyDifficulty_ok_true_hash pw b parts.1
            have hmerk : b.merkle_root_hash = emptyMerkleRoot :=
              getHash_genesis_merkle b (hhash ▸ hgen)
            have hm : merkleRootHash b.transactions = b.merkle_root_hash := by
              have hb := parts.2.1
              unfold Block.verifyMerkle at hb
              exact of_decide_eq_true hb
            rw [hmerk] at hm
            exact merkleRootHash_ne_empty b.transactions hne hm
          · exact hnil

/-- C2: if some input of a transaction in `b` references a `(prev_tx_hash,
output_index)` pair that is no coin of `C.unspent_coins`, or two inputs among
`b`'s transactions reference the same pair, then `try_append` produces no new
chain (it returns `None` or raises).  In this final iteration the property
holds sweepingly: no block with any transaction is ever accepted (cf.
`tryAppend_accept_tx_nil`), and both conditions require a transaction. -/
theorem try_append_rejects_bad_inputs (pw : HVal → List Nat) (now : Int)
    (C : Blockchain) (b : Block)
    (hbad :
      (∃ t ∈ b.transactions, ∃ inp ∈ t.inputs,
        ∀ e ∈ C.unspent_coins,
          ¬ (e.1.transaction_hash = inp.transaction_hash ∧
             e.1.output_idx = inp.output_idx)) ∨
      ¬ ((b.transactions.map Transaction.inputs).flatten.map
          (fun i => (i.transaction_hash, i.output_idx))).Nodup) :
    acceptedChain (C.tryAppend pw now b) = none := by
  cases hacc : acceptedChain (C.tryAppend pw now b) with
  | none => rfl
  | some c =>
    exfalso
    have hnil := tryAppend_accept_tx_nil pw now C b c hacc
    rcases hbad with ⟨t, ht, _⟩ | hdup
    · rw [hnil] at ht
      cases ht
    · rw [hnil] at hdup
      simp at hdup

/-- A transaction spending a coin that is not in the genesis chain's (empty)
unspent set. -/
def c2BadTx : Transaction :=
  { inputs := [⟨.bytes [9], 0, "u"⟩]
    targets := []
    timestamp := 0
    iv := none }

/-- A block containing `c2BadTx`. -/
def c2BadBlock : Block :=
  { hash := .bytes [8]
    prev_block_hash := GENESIS_BLOCK_HASH
    merkle_root_hash := emptyMerkleRoot
    time := GENESIS_TIME + 1
    nonce := 0
    height := 1000
    difficulty := 1000
    transactions := [c2BadTx] }

/-- The digest-byte function used for closed evaluations (all hashes read as
the maximal 512-bit integer, so the proof of work always passes). -/
def pw0 : HVal → List Nat := fun _ => List.replicate 64 255

theorem try_append_rejects_bad_inputs_witness :
    (∃ t ∈ c2BadBlock.transactions, ∃ inp ∈ t.inputs,
      ∀ e ∈ Blockchain.init.unspent_coins,
        ¬ (e.1.transaction_hash = inp.transaction_hash ∧
           e.1.output_idx = inp.output_idx)) ∧
    acceptedChain (Blockchain.init.tryAppend pw0 0 c2BadBlock) = none :=
  ⟨by decide, try_append_rejects_bad_inputs pw0 0 Blockchain.init c2BadBlock (Or.inl (by decide))⟩

/-! ## Closed instances for C9 and C10 -/

/-- An empty block on top of the genesis block, before its hash is set. -/
def c9Header : Block :=
  { hash := .bytes []
    prev_block_hash := GENESIS_BLOCK_HASH
    merkle_root_hash := emptyMerkleRoot
    time := GENESIS_TIME + 1
    nonce := 0
    height := 1000
    difficulty := 1000
    transactions := [] }

/-- `c9Header` with its correct hash: a block the genesis chain accepts. -/
def c9Block : Block := { c9Header with hash := c9Header.getHash }

/-- The chain produced by appending `c9Block` to the genesis chain. -/
def c9Result : Blockchain :=
  { blocks := [GENESIS_BLOCK, c9Block]
    block_indices := [(GENESIS_BLOCK_HASH, 0), (c9Block.hash, 1)]
    unspent_coins := [] }

theorem try_append_functional_witness :
    acceptedChain (Blockchain.init.tryAppendSt pw0 (GENESIS_TIME + 10000000) c9Block).2 =
      some c9Result ∧
    c9Result.blocks = Blockchain.init.blocks ++ [c9Block] ∧ c9Result ≠ Blockchain.init :=
  ⟨by decide,
   (try_append_functional pw0 (GENESIS_TIME + 10000000) Blockchain.init c9Block).2
     c9Result (by decide)⟩

theorem new_transaction_received_admission_witness :
    (newTransactionReceived c10State c10T).1.mempool =
      c10State.mempool ++ [(c10T.getHash, c10T)] :=
  (new_transaction_received_admission c10State c10T).2.2 (by decide)
